import Mathlib

/-!
Verification of the query codec in `src/query.rs` of hasura/jsonapi-rust.

The file embeds the codec shallowly: `Value` models the semi-structured
`serde_json::value::Value` tree consumed and produced by the codec, the five
field extractors and the two top-level operations are translated function by
function from the Rust source, and the external collaborators (the query-string
tokenizer `queryst::parse` and the document parser `serde_json::from_str`) are
passed in as parameters, following the collaborator contracts of the spec.
-/

namespace JsonApiQuery

/-- Model of `serde_json::value::Value`: a semi-structured document with
null/bool/number/string leaves, arrays, and objects.  Numbers are carried as
integers (the codec never inspects numeric leaves beyond their shape, and the
only rendering exercised is of integer-valued documents); objects are carried
as association lists in iteration order. -/
inductive Value where
  | null : Value
  | bool : Bool → Value
  | number : Int → Value
  | string : String → Value
  | array : List Value → Value
  | object : List (String × Value) → Value
deriving Repr

/-- Model of Rust `str::split(',')` at the character level: splitting a
character list on a separator character, keeping empty segments. -/
def splitOnChar (c : Char) : List Char → List (List Char)
  | [] => [[]]
  | x :: xs =>
    let r := splitOnChar c xs
    if x = c then [] :: r
    else
      match r with
      | [] => [[x]]
      | y :: ys => (x :: y) :: ys

/-- Model of Rust `str::split(',')` followed by collecting each piece into an
owned string, as done by the extractors. -/
def splitComma (s : String) : List String :=
  (splitOnChar ',' s.data).map String.mk

/-- Model of Rust `[String]::join(sep)`: interleave the separator between the
pieces, yielding `""` on the empty list. -/
def joinSep (sep : String) : List String → String
  | [] => ""
  | [x] => x
  | x :: y :: ys => x ++ sep ++ joinSep sep (y :: ys)

/-- Accumulate the value of a run of decimal digits, as Rust's integer
parsers do digit by digit. -/
def digitsVal (acc : Nat) : List Char → Nat
  | [] => acc
  | c :: cs => digitsVal (acc * 10 + (c.toNat - '0'.toNat)) cs

/-- Model of Rust `str::parse::<i64>()` (as an `Option`): an optional sign
followed by one or more ASCII digits, rejected when the value overflows the
`i64` range. -/
def parseI64 (s : String) : Option Int :=
  match s.data with
  | [] => none
  | c :: rest =>
    let body : Bool × List Char :=
      if c = '-' then (true, rest)
      else if c = '+' then (false, rest)
      else (false, c :: rest)
    match body with
    | (neg, digits) =>
      if digits = [] then none
      else if digits.all Char.isDigit then
        let v : Int := if neg then -(digitsVal 0 digits : Int) else (digitsVal 0 digits : Int)
        if -9223372036854775808 ≤ v ∧ v ≤ 9223372036854775807 then some v else none
      else none

/-- Model of serde_json's `parse_index`: an array index token must be plain
decimal with no `+` sign and no redundant leading zero, and must fit `usize`. -/
def parse_index (s : String) : Option Nat :=
  match s.data with
  | [] => none
  | c :: rest =>
    if c = '+' ∨ (c = '0' ∧ rest ≠ []) then none
    else if (c :: rest).all Char.isDigit then
      let n := digitsVal 0 (c :: rest)
      if n ≤ 18446744073709551615 then some n else none
    else none

/-- Replace every occurrence of the two-character pattern `a b` by `r`,
scanning left to right without overlap — the behaviour of Rust
`str::replace` for the two-character patterns used by JSON pointers. -/
def replace2 (a b : Char) (r : List Char) : List Char → List Char
  | [] => []
  | [x] => [x]
  | x :: y :: rest =>
    if x = a ∧ y = b then r ++ replace2 a b r rest
    else x :: replace2 a b r (y :: rest)

/-- Unescape one JSON-pointer token: `~1` becomes `/`, then `~0` becomes `~`,
as serde_json's `Value::pointer` does. -/
def unescapeToken (t : List Char) : String :=
  String.mk (replace2 '~' '0' ['~'] (replace2 '~' '1' ['/'] t))

/-- Model of `serde_json::Map::get` on an object's entry list. -/
def objGet (token : String) : List (String × Value) → Option Value
  | [] => none
  | kv :: rest => if kv.1 == token then some kv.2 else objGet token rest

/-- One step of JSON-pointer traversal: key lookup in an object, checked
index lookup in an array, failure elsewhere. -/
def pointerStep (target : Value) (token : String) : Option Value :=
  match target with
  | Value.object kvs => objGet token kvs
  | Value.array xs => (parse_index token).bind fun i => xs.get? i
  | _ => none

/-- Model of `serde_json::Value::pointer`: the empty pointer designates the
value itself, a pointer must otherwise start with `/`, and its
slash-separated tokens are unescaped and traversed in order. -/
def Value.pointer (v : Value) (ptr : String) : Option Value :=
  match ptr.data with
  | [] => some v
  | '/' :: rest => ((splitOnChar '/' rest).map unescapeToken).foldlM pointerStep v
  | _ => none

/-- Model of `Value::as_str`. -/
def Value.as_str : Value → Option String
  | Value.string s => some s
  | _ => none

/-- Model of `Value::is_string`. -/
def Value.is_string : Value → Bool
  | Value.string _ => true
  | _ => false

/-- Model of `Value::is_object`. -/
def Value.is_object : Value → Bool
  | Value.object _ => true
  | _ => false

/-- Model of `Value::as_object` (returning the entry list). -/
def Value.as_object : Value → Option (List (String × Value))
  | Value.object kvs => some kvs
  | _ => none

/-- Two hexadecimal digits of a byte, lowercase, as serde_json prints control
characters. -/
def hexDigit (n : Nat) : Char :=
  if n < 10 then Char.ofNat ('0'.toNat + n) else Char.ofNat ('a'.toNat + (n - 10))

/-- serde_json's escaping of one character inside a JSON string: quote and
backslash are escaped, control characters below 0x20 take their short escape
or a `\u00XX` form, everything else is emitted verbatim. -/
def escapeChar (c : Char) : List Char :=
  if c = '"' then ['\\', '"']
  else if c = '\\' then ['\\', '\\']
  else if c = '\x08' then ['\\', 'b']
  else if c = '\x09' then ['\\', 't']
  else if c = '\x0a' then ['\\', 'n']
  else if c = '\x0c' then ['\\', 'f']
  else if c = '\x0d' then ['\\', 'r']
  else if c.toNat < 0x20 then ['\\', 'u', '0', '0', hexDigit (c.toNat / 16), hexDigit (c.toNat % 16)]
  else [c]

/-- A JSON string literal in serde_json's compact form. -/
def escapeString (s : String) : String :=
  String.mk ('"' :: (s.data.flatMap escapeChar ++ ['"']))

mutual

/-- Model of serde_json's `Display` for `Value` (the compact form used by
`format!("{}", value)` in `Query::to_params`). -/
def Value.display : Value → String
  | Value.null => "null"
  | Value.bool true => "true"
  | Value.bool false => "false"
  | Value.number n => toString n
  | Value.string s => escapeString s
  | Value.array xs => "[" ++ joinSep "," (displayList xs) ++ "]"
  | Value.object kvs => "\x7b" ++ joinSep "," (displayEntries kvs) ++ "\x7d"

/-- Compact rendering of the elements of a JSON array. -/
def displayList : List Value → List String
  | [] => []
  | v :: vs => Value.display v :: displayList vs

/-- Compact rendering of the members of a JSON object. -/
def displayEntries : List (String × Value) → List String
  | [] => []
  | kv :: kvs => (escapeString kv.1 ++ ":" ++ Value.display kv.2) :: displayEntries kvs

end

/-- Insertion into a key-sorted association list, replacing the entry when
the key is already present: the behaviour of `BTreeMap::insert` on the
entry list in ascending key order. -/
def slInsert (k : String) (v : List String) : List (String × List String) → List (String × List String)
  | [] => [(k, v)]
  | kv :: rest =>
    if k < kv.1 then (k, v) :: kv :: rest
    else if k = kv.1 then (k, v) :: rest
    else kv :: slInsert k v rest

/-- First-match lookup in an association list; on a key-sorted duplicate-free
list this is `BTreeMap::get`. -/
def slLookup (k : String) : List (String × List String) → Option (List String)
  | [] => none
  | kv :: rest => if kv.1 == k then some kv.2 else slLookup k rest

theorem slInsert_mem {k : String} {v : List String} {x : String × List String} :
    ∀ {l : List (String × List String)}, x ∈ slInsert k v l → x = (k, v) ∨ x ∈ l := by
  intro l
  induction l with
  | nil => simp [slInsert]
  | cons kv rest ih =>
    simp only [slInsert]
    split
    · intro h
      rcases List.mem_cons.mp h with h | h
      · exact Or.inl h
      · exact Or.inr h
    · split
      · intro h
        rcases List.mem_cons.mp h with h | h
        · exact Or.inl h
        · exact Or.inr (List.mem_cons_of_mem _ h)
      · intro h
        rcases List.mem_cons.mp h with h | h
        · exact Or.inr (List.mem_cons.mpr (Or.inl h))
        · rcases ih h with h | h
          · exact Or.inl h
          · exact Or.inr (List.mem_cons_of_mem _ h)

/-- Model of `BTreeMap<String, Vec<String>>`: the entry list in ascending key
order, with the ordering invariant the Rust container enforces by
construction. -/
structure FieldsMap where
  entries : List (String × List String)
  sorted : entries.Pairwise (fun a b => a.1 < b.1)

theorem slInsert_pairwise (k : String) (v : List String) :
    ∀ l : List (String × List String), l.Pairwise (fun a b => a.1 < b.1) →
      (slInsert k v l).Pairwise (fun a b => a.1 < b.1) := by
  intro l
  induction l with
  | nil => intro _; simp [slInsert]
  | cons kv rest ih =>
    intro hp
    rcases List.pairwise_cons.mp hp with ⟨hhead, hrest⟩
    simp only [slInsert]
    split
    · refine List.pairwise_cons.mpr ⟨?_, hp⟩
      intro x hx
      rcases List.mem_cons.mp hx with h | h
      · subst h; assumption
      · exact lt_trans (by assumption) (hhead x h)
    · split
      · refine List.pairwise_cons.mpr ⟨?_, hrest⟩
        intro x hx
        have heq : k = kv.1 := by assumption
        show k < x.1
        rw [heq]
        exact hhead x hx
      · refine List.pairwise_cons.mpr ⟨?_, ih hrest⟩
        intro x hx
        rcases slInsert_mem hx with h | h
        · subst h
          have h1 : ¬ k < kv.1 := by assumption
          have h2 : ¬ k = kv.1 := by assumption
          exact lt_of_le_of_ne (not_lt.mp h1) (Ne.symm h2)
        · exact hhead x h

/-- `BTreeMap::new()`. -/
def FieldsMap.empty : FieldsMap := ⟨[], List.Pairwise.nil⟩

/-- `BTreeMap::insert`, replacing any existing entry for the key. -/
def FieldsMap.insert (m : FieldsMap) (k : String) (v : List String) : FieldsMap :=
  ⟨slInsert k v m.entries, slInsert_pairwise k v m.entries m.sorted⟩

/-- `BTreeMap::get`. -/
def FieldsMap.get (m : FieldsMap) (k : String) : Option (List String) :=
  slLookup k m.entries

theorem FieldsMap.ext_entries : ∀ {m m' : FieldsMap}, m.entries = m'.entries → m = m' := by
  intro m m' h
  cases m
  cases m'
  cases h
  rfl

/-- Model of the Rust `PageParams` struct (`i64` fields modelled as `Int`;
every value reachable through the codec is produced by the range-checked
`parseI64`). -/
structure PageParams where
  offset : Int
  limit : Int
deriving Repr, DecidableEq

/-- Model of the Rust `Query` struct. -/
structure Query where
  _type : String
  «include» : Option (List String)
  fields : Option FieldsMap
  page : Option PageParams
  sort : Option (List String)
  filter : Option Value

/-- `Default::default()` for `Query` (derived in the source): empty string
and `None` in every optional field. -/
def Query.default : Query :=
  { _type := "", «include» := none, fields := none, page := none, sort := none, filter := none }

/-- Translation of `ok_params_include` from src/query.rs. -/
def ok_params_include (o : Value) : Option (List String) :=
  match o.pointer "/include" with
  | none => none
  | some inc =>
    match inc.as_str with
    | none => none
    | some s => some (splitComma s)

/-- Translation of `ok_params_fields` from src/query.rs: iterate the members
of the `fields` object, splitting string values on commas, into a fresh
`BTreeMap`. -/
def ok_params_fields (o : Value) : FieldsMap :=
  match o.pointer "/fields" with
  | some x =>
    if x.is_object then
      match x.as_object with
      | some obj =>
        obj.foldl
          (fun fields kv =>
            fields.insert kv.1
              (match kv.2.as_str with
               | some string => splitComma string
               | none => []))
          FieldsMap.empty
      | none => FieldsMap.empty
    else FieldsMap.empty
  | none => FieldsMap.empty

/-- Translation of `ok_params_sort` from src/query.rs. -/
def ok_params_sort (o : Value) : Option (List String) :=
  match o.pointer "/sort" with
  | none => none
  | some sort =>
    match sort.as_str with
    | none => none
    | some sort_str => some (splitComma sort_str)

/-- Translation of `ok_params_filter` from src/query.rs, with the external
document parser `serde_json::from_str` passed in as `jp` (spec §6
collaborator contract: a string goes in, a document or a failure comes
out). -/
def ok_params_filter (jp : String → Option Value) (o : Value) : Option Value :=
  match o.pointer "/filter" with
  | none => none
  | some x =>
    match x.as_str with
    | none => none
    | some s =>
      match jp s with
      | none => none
      | some parsed_json => if parsed_json.is_object then some parsed_json else none

/-- Translation of `ok_params_page` from src/query.rs: each of the two page
components resolved by the same inline match on its key path. -/
def ok_params_page (o : Value) : PageParams :=
  { offset :=
      match o.pointer "/page/offset" with
      | none => 0
      | some num =>
        if num.is_string then
          match num.as_str.map parseI64 with
          | some y => y.getD 0
          | none => 0
        else 0,
    limit :=
      match o.pointer "/page/limit" with
      | none => 0
      | some num =>
        if num.is_string then
          match num.as_str.map parseI64 with
          | some y => y.getD 0
          | none => 0
        else 0 }

/-- Translation of `ok_params` from src/query.rs: assemble a `Query` from
the five extractors, with the resource type fixed to `"none"`. -/
def ok_params (jp : String → Option Value) (o : Value) : Query :=
  { _type := "none",
    «include» := ok_params_include o,
    fields := some (ok_params_fields o),
    page := some (ok_params_page o),
    sort := ok_params_sort o,
    filter := ok_params_filter jp o }

/-- Translation of `Query::from_params` from src/query.rs, with the external
query-string tokenizer `queryst::parse` passed in as `tokenize` (spec §6
collaborator contract: a raw string goes in, a key tree or a parse error
comes out). -/
def Query.from_params (jp : String → Option Value) (tokenize : String → Except String Value)
    (params : String) : Query :=
  match tokenize params with
  | Except.ok o => ok_params jp o
  | Except.error _ => { Query.default with _type := "none" }

/-- Translation of `PageParams::to_params` from src/query.rs. -/
def PageParams.to_params (p : PageParams) : String :=
  "page[limit]=" ++ toString p.limit ++ "&page[offset]=" ++ toString p.offset

/-- Translation of `Query::to_params` from src/query.rs: push one rendered
group per present field into a vector, in source order, and join with `&`. -/
def Query.to_params (q : Query) : String :=
  let params : List String := []
  let params :=
    match q.«include» with
    | some inc => params ++ ["include=" ++ joinSep "," inc]
    | none => params
  let params :=
    match q.fields with
    | some fields => params ++ fields.entries.map (fun kv => "fields[" ++ kv.1 ++ "]=" ++ joinSep "," kv.2)
    | none => params
  let params :=
    match q.sort with
    | some sort => params ++ ["sort=" ++ joinSep "," sort]
    | none => params
  let params :=
    match q.filter with
    | some filter => params ++ ["filter=" ++ filter.display]
    | none => params
  let params :=
    match q.page with
    | some page => params ++ [page.to_params]
    | none => params
  joinSep "&" params

/-!  Supporting lemmas. -/

/-- Character-level interleaving of a separator, mirroring `joinSep` on the
underlying character lists. -/
def joinWithChar (c : Char) : List (List Char) → List Char
  | [] => []
  | [x] => x
  | x :: y :: ys => x ++ c :: joinWithChar c (y :: ys)

theorem splitOnChar_ne_nil (c : Char) : ∀ l : List Char, splitOnChar c l ≠ [] := by
  intro l
  cases l with
  | nil => simp [splitOnChar]
  | cons x xs =>
    simp only [splitOnChar]
    split
    · simp
    · split <;> simp

theorem joinWithChar_splitOnChar (c : Char) : ∀ l : List Char, joinWithChar c (splitOnChar c l) = l := by
  intro l
  induction l with
  | nil => rfl
  | cons x xs ih =>
    simp only [splitOnChar]
    by_cases hx : x = c
    · rw [if_pos hx]
      rcases hsplit : splitOnChar c xs with _ | ⟨y, ys⟩
      · exact absurd hsplit (splitOnChar_ne_nil c xs)
      · rw [hsplit] at ih
        simp only [joinWithChar, List.nil_append]
        rw [ih, hx]
    · rw [if_neg hx]
      rcases hsplit : splitOnChar c xs with _ | ⟨y, ys⟩
      · exact absurd hsplit (splitOnChar_ne_nil c xs)
      · rw [hsplit] at ih
        cases ys with
        | nil =>
          simp only [joinWithChar] at ih ⊢
          rw [ih]
        | cons z zs =>
          simp only [joinWithChar] at ih ⊢
          rw [← ih]
          simp

theorem mk_append (a b : List Char) : String.mk a ++ String.mk b = String.mk (a ++ b) := rfl

theorem joinSep_map_mk (c : Char) :
    ∀ ls : List (List Char), joinSep (String.mk [c]) (ls.map String.mk) = String.mk (joinWithChar c ls) := by
  intro ls
  induction ls with
  | nil => rfl
  | cons x xs ih =>
    cases xs with
    | nil => rfl
    | cons y ys =>
      simp only [List.map_cons] at ih ⊢
      simp only [joinSep, joinWithChar]
      rw [ih, mk_append, mk_append]
      show String.mk ((x ++ [c]) ++ joinWithChar c (y :: ys)) = _
      congr 1
      simp

/-- Splitting on commas loses no information: re-joining the pieces with
commas restores the original string (so splitting neither trims, drops empty
pieces, de-duplicates, nor reorders). -/
theorem joinSep_splitComma (s : String) : joinSep "," (splitComma s) = s := by
  unfold splitComma
  have h : ("," : String) = String.mk [','] := rfl
  rw [h, joinSep_map_mk, joinWithChar_splitOnChar]

theorem splitComma_ne_nil (s : String) : splitComma s ≠ [] := by
  unfold splitComma
  intro h
  exact splitOnChar_ne_nil ',' s.data (List.map_eq_nil_iff.mp h)

theorem slLookup_slInsert (k k' : String) (v : List String) :
    ∀ l : List (String × List String),
      slLookup k' (slInsert k v l) = if k' = k then some v else slLookup k' l := by
  intro l
  induction l with
  | nil =>
    simp only [slInsert, slLookup]
    by_cases h : k' = k
    · rw [if_pos h, if_pos (beq_iff_eq.mpr h.symm)]
    · rw [if_neg h, if_neg (by simpa [beq_iff_eq] using fun hh => h hh.symm)]
  | cons kv rest ih =>
    simp only [slInsert]
    split
    · simp only [slLookup]
      by_cases h : k' = k
      · rw [if_pos (beq_iff_eq.mpr h.symm), if_pos h]
      · rw [if_neg (by simpa [beq_iff_eq] using fun hh => h hh.symm), if_neg h]
    · split
      · have hk : k = kv.1 := by assumption
        simp only [slLookup]
        by_cases h : k' = k
        · rw [if_pos (beq_iff_eq.mpr h.symm), if_pos h]
        · rw [if_neg (by simpa [beq_iff_eq] using fun hh => h hh.symm), if_neg h,
            if_neg (by simpa [beq_iff_eq] using fun hh => h (hh.symm.trans hk.symm))]
      · have hk : ¬ k = kv.1 := by assumption
        simp only [slLookup]
        by_cases hh : kv.1 = k'
        · rw [if_pos (beq_iff_eq.mpr hh), if_pos (beq_iff_eq.mpr hh),
            if_neg (fun hc => hk (hh ▸ hc).symm)]
        · rw [if_neg (fun hc => hh (beq_iff_eq.mp hc)), if_neg (fun hc => hh (beq_iff_eq.mp hc)), ih]

theorem find?_append_match {α : Type} (p : α → Bool) :
    ∀ l₁ l₂ : List α, (l₁ ++ l₂).find? p =
      (match l₁.find? p with
       | some x => some x
       | none => l₂.find? p) := by
  intro l₁ l₂
  induction l₁ with
  | nil => rfl
  | cons x xs ih =>
    simp only [List.cons_append, List.find?]
    cases hp : p x
    · exact ih
    · rfl

theorem get_foldl_insert (f : Value → List String) :
    ∀ (kvs : List (String × Value)) (init : FieldsMap) (k : String),
      (kvs.foldl (fun fields kv => fields.insert kv.1 (f kv.2)) init).get k =
        (match kvs.reverse.find? (fun kv => kv.1 == k) with
         | some kv => some (f kv.2)
         | none => init.get k) := by
  intro kvs
  induction kvs with
  | nil => intro init k; rfl
  | cons kv rest ih =>
    intro init k
    simp only [List.foldl_cons, List.reverse_cons]
    rw [ih, find?_append_match]
    cases hfind : rest.reverse.find? (fun kv => kv.1 == k) with
    | some kv' => rfl
    | none =>
      simp only [List.find?]
      cases hbk : (kv.1 == k) with
      | false =>
        have hnk : ¬ k = kv.1 := fun hc => by simp [hc] at hbk
        show slLookup k (slInsert kv.1 (f kv.2) init.entries) = _
        rw [slLookup_slInsert, if_neg hnk]
        rfl
      | true =>
        have hk : k = kv.1 := (beq_iff_eq.mp hbk).symm
        show slLookup k (slInsert kv.1 (f kv.2) init.entries) = _
        rw [slLookup_slInsert, if_pos hk]

/-!  Specification-side definitions, written from the spec's words, for the
refinement claims that compare the source functions against them. -/

/-- Follows the spec (§4.5): one page component is resolved as `0` when the
key is absent, `0` when the value is not string-shaped, `0` when the string
fails integer parsing, and the parsed integer otherwise. -/
def page_value_spec : Option Value → Int
  | none => 0
  | some (Value.string s) => (parseI64 s).getD 0
  | some _ => 0

/-- Follows the spec (§4.2): a member's value sequence is the comma-split of
a string-shaped value, and empty for any other shape. -/
def field_value_spec (v : Value) : List String :=
  match v.as_str with
  | some s => splitComma s
  | none => []

/-- Follows the spec (§4.7): the rendered parameter groups in the fixed
order include, fields (one group per key), sort, filter, page; only present
(`Some`) fields contribute a group, and the page group is exactly
`page[limit]=<limit>&page[offset]=<offset>`. -/
def rendered_groups (q : Query) : List String :=
  (match q.«include» with
   | some inc => ["include=" ++ joinSep "," inc]
   | none => []) ++
  (match q.fields with
   | some fm => fm.entries.map (fun kv => "fields[" ++ kv.1 ++ "]=" ++ joinSep "," kv.2)
   | none => []) ++
  (match q.sort with
   | some s => ["sort=" ++ joinSep "," s]
   | none => []) ++
  (match q.filter with
   | some f => ["filter=" ++ f.display]
   | none => []) ++
  (match q.page with
   | some p => ["page[limit]=" ++ toString p.limit ++ "&page[offset]=" ++ toString p.offset]
   | none => [])

/-- Follows the spec (§4.7): the encoded string is the present groups joined
with `&`. -/
def to_params_spec (q : Query) : String :=
  joinSep "&" (rendered_groups q)

/-!  Claim theorems. -/

/-- C2: for every input string on which the external tokenizer fails,
`from_params` returns a `Query` whose `_type` is `"none"` and whose
`include`, `fields`, `page`, `sort` and `filter` are all `None` — the
type-level defaults, bypassing the five field extractors entirely. -/
theorem from_params_tokenizer_failure (jp : String → Option Value)
    (tokenize : String → Except String Value) (params e : String)
    (h : tokenize params = Except.error e) :
    Query.from_params jp tokenize params =
      { _type := "none", «include» := none, fields := none, page := none,
        sort := none, filter := none } := by
  unfold Query.from_params
  rw [h]
  rfl

theorem from_params_tokenizer_failure_witness :
    ((fun _ : String => (Except.error "invalid brackets" : Except String Value)) "!"
        = Except.error "invalid brackets") ∧
    Query.from_params (fun _ => none) (fun _ => Except.error "invalid brackets") "!" =
      { _type := "none", «include» := none, fields := none, page := none,
        sort := none, filter := none } :=
  ⟨rfl, from_params_tokenizer_failure (fun _ => none)
    (fun _ => Except.error "invalid brackets") "!" "invalid brackets" rfl⟩

/-- C1 counterexample: a decode in which the external tokenizer rejects the
input (its contract in the spec allows it to fail) produces `fields = None`,
so `fields` and `page` are not `Some` after every call to `from_params`. -/
theorem c1_counterexample :
    (Query.from_params (fun _ => none) (fun _ => Except.error "invalid brackets") "!").fields
        = none ∧
    (Query.from_params (fun _ => none) (fun _ => Except.error "invalid brackets") "!").page
        = none :=
  ⟨rfl, rfl⟩

/-- C1 (amended): after a call to `from_params`, `fields` and `page` are
`Some` exactly when the external tokenizer succeeded on the input; on
tokenizer failure both are `None` (the all-default fallback `Query`). -/
theorem from_params_fields_page_some_iff (jp : String → Option Value)
    (tokenize : String → Except String Value) (params : String) :
    ((Query.from_params jp tokenize params).fields.isSome ↔
        ∃ o, tokenize params = Except.ok o) ∧
    ((Query.from_params jp tokenize params).page.isSome ↔
        ∃ o, tokenize params = Except.ok o) := by
  cases h : tokenize params with
  | ok o => simp [Query.from_params, h, ok_params]
  | error e => simp [Query.from_params, h, Query.default]

theorem from_params_fields_page_some_iff_witness :
    (Query.from_params (fun _ => none) (fun _ => Except.ok (Value.object [])) "").fields.isSome ∧
    (Query.from_params (fun _ => none) (fun _ => Except.ok (Value.object [])) "").page.isSome :=
  ⟨(from_params_fields_page_some_iff (fun _ => none)
      (fun _ => Except.ok (Value.object [])) "").1.mpr ⟨Value.object [], rfl⟩,
   (from_params_fields_page_some_iff (fun _ => none)
      (fun _ => Except.ok (Value.object [])) "").2.mpr ⟨Value.object [], rfl⟩⟩

/-- C3: when decoding, each of `page.offset` and `page.limit` is resolved
independently at the key paths `page/offset` and `page/limit` — absent key,
non-string value, or unparseable string give `0`, and a string parsing as an
integer gives that integer; in particular integer-parseable strings `O` and
`L` under those paths decode to `page = \x7boffset: O, limit: L\x7d`. -/
theorem ok_params_page_spec :
    (∀ o : Value,
        ok_params_page o =
          { offset := page_value_spec (o.pointer "/page/offset"),
            limit := page_value_spec (o.pointer "/page/limit") }) ∧
    (∀ (O L : String) (vo vl : Int), parseI64 O = some vo → parseI64 L = some vl →
        ok_params_page
            (Value.object [("page",
              Value.object [("offset", Value.string O), ("limit", Value.string L)])]) =
          { offset := vo, limit := vl }) := by
  have hcomp : ∀ p : Option Value,
      (match p with
       | none => (0 : Int)
       | some num =>
         if num.is_string then
           match num.as_str.map parseI64 with
           | some y => y.getD 0
           | none => 0
         else 0) = page_value_spec p := by
    intro p
    cases p with
    | none => rfl
    | some v => cases v <;> rfl
  have hmain : ∀ o : Value,
      ok_params_page o =
        { offset := page_value_spec (o.pointer "/page/offset"),
          limit := page_value_spec (o.pointer "/page/limit") } := by
    intro o
    unfold ok_params_page
    rw [hcomp, hcomp]
  refine ⟨hmain, ?_⟩
  intro O L vo vl hO hL
  rw [hmain]
  have hpo : (Value.object [("page",
      Value.object [("offset", Value.string O), ("limit", Value.string L)])]).pointer
        "/page/offset" = some (Value.string O) := rfl
  have hpl : (Value.object [("page",
      Value.object [("offset", Value.string O), ("limit", Value.string L)])]).pointer
        "/page/limit" = some (Value.string L) := rfl
  rw [hpo, hpl]
  simp [page_value_spec, hO, hL]

theorem ok_params_page_spec_witness :
    parseI64 "-5" = some (-5) ∧ parseI64 "7" = some 7 ∧
    ok_params_page
        (Value.object [("page",
          Value.object [("offset", Value.string "-5"), ("limit", Value.string "7")])]) =
      { offset := -5, limit := 7 } :=
  ⟨rfl, rfl, ok_params_page_spec.2 "-5" "7" (-5) 7 rfl rfl⟩

theorem ok_params_include_eq (o : Value) :
    ok_params_include o = ((o.pointer "/include").bind Value.as_str).map splitComma := by
  unfold ok_params_include
  cases o.pointer "/include" with
  | none => rfl
  | some v => cases v <;> rfl

theorem ok_params_sort_eq (o : Value) :
    ok_params_sort o = ((o.pointer "/sort").bind Value.as_str).map splitComma := by
  unfold ok_params_sort
  cases o.pointer "/sort" with
  | none => rfl
  | some v => cases v <;> rfl

/-- C4: for every `Query` value, `to_params` renders only the present
(`Some`) groups, in the fixed order include, fields (one group per key, keys
ascending), sort, filter, page, joined with `&`; the page group is exactly
`page[limit]=<limit>&page[offset]=<offset>`; an all-`None` query serializes
to the empty string. -/
theorem to_params_renders_present_groups (q : Query) :
    q.to_params = to_params_spec q ∧
    (∀ fm, q.fields = some fm → fm.entries.Pairwise (fun a b => a.1 < b.1)) ∧
    (q.«include» = none → q.fields = none → q.sort = none → q.filter = none → q.page = none →
        q.to_params = "") := by
  refine ⟨?_, ?_, ?_⟩
  · rcases q with ⟨t, i, f, s, fl, p⟩
    cases i <;> cases f <;> cases s <;> cases fl <;> cases p <;>
      simp [Query.to_params, to_params_spec, rendered_groups, PageParams.to_params]
  · intro fm _
    exact fm.sorted
  · intro h1 h2 h3 h4 h5
    simp [Query.to_params, h1, h2, h3, h4, h5, joinSep]

theorem to_params_renders_witness :
    (Query.default.«include» = none ∧ Query.default.fields = none ∧ Query.default.sort = none ∧
        Query.default.filter = none ∧ Query.default.page = none) ∧
    Query.default.to_params = "" :=
  ⟨⟨rfl, rfl, rfl, rfl, rfl⟩,
    (to_params_renders_present_groups Query.default).2.2 rfl rfl rfl rfl rfl⟩

/-- C6 counterexample: an `include` entry whose string value is empty decodes
to `Some [""]` — one segment holding the empty string — not to `None`. -/
theorem include_empty_string_counterexample :
    ok_params_include (Value.object [("include", Value.string "")]) = some [""] ∧
    ok_params_include (Value.object [("include", Value.string "")]) ≠ none := by
  refine ⟨rfl, ?_⟩
  intro h
  rw [show ok_params_include (Value.object [("include", Value.string "")]) = some [""] from rfl]
    at h
  cases h

/-- C6 (amended): the decoder's `include` is `None` exactly when the entry is
absent or not string-shaped, and it never produces `Some` of an empty
sequence; but a present empty-string value decodes to `Some [""]`, not
`None`. -/
theorem include_none_iff_never_empty_seq (o : Value) :
    (ok_params_include o = none ↔ (o.pointer "/include").bind Value.as_str = none) ∧
    (∀ l, ok_params_include o = some l → l ≠ []) := by
  rw [ok_params_include_eq]
  constructor
  · exact Option.map_eq_none'
  · intro l hl
    rcases Option.map_eq_some'.mp hl with ⟨s, _, rfl⟩
    exact splitComma_ne_nil s

theorem include_none_iff_never_empty_seq_witness :
    ok_params_include (Value.object [("include", Value.string "a,b")]) = some ["a", "b"] ∧
    ["a", "b"] ≠ [] :=
  ⟨rfl, (include_none_iff_never_empty_seq
    (Value.object [("include", Value.string "a,b")])).2 ["a", "b"] rfl⟩

/-- C7: the include extractor (and identically the sort extractor at key
`sort`) is `None` when the entry is absent or not a string leaf, and
otherwise `Some` of the comma-split of the string; the split is lossless
(re-joining with commas restores the string), so it neither trims, drops
empty segments, de-duplicates, nor reorders. -/
theorem include_sort_extractors (o : Value) :
    ok_params_include o = ((o.pointer "/include").bind Value.as_str).map splitComma ∧
    ok_params_sort o = ((o.pointer "/sort").bind Value.as_str).map splitComma ∧
    ∀ s : String, joinSep "," (splitComma s) = s :=
  ⟨ok_params_include_eq o, ok_params_sort_eq o, joinSep_splitComma⟩

/-- C8: the fields extractor returns the empty mapping when the entry is
absent or not object-shaped; for an object it keeps every member key, with
string values comma-split and non-string values mapped to the empty
sequence (the last occurrence of a duplicated key winning, as repeated
`BTreeMap::insert` does); the result is always a mapping, never absent. -/
theorem fields_extractor_spec (o : Value) :
    (o.pointer "/fields" = none → ok_params_fields o = FieldsMap.empty) ∧
    (∀ x, o.pointer "/fields" = some x → x.as_object = none →
        ok_params_fields o = FieldsMap.empty) ∧
    (∀ kvs, o.pointer "/fields" = some (Value.object kvs) →
        (∀ k, (ok_params_fields o).get k =
            (kvs.reverse.find? (fun kv => kv.1 == k)).map (fun kv => field_value_spec kv.2)) ∧
        (∀ kv, kv ∈ kvs → ((ok_params_fields o).get kv.1).isSome)) := by
  refine ⟨?_, ?_, ?_⟩
  · intro h
    unfold ok_params_fields
    rw [h]
  · intro x hx hobj
    unfold ok_params_fields
    rw [hx]
    cases x <;> simp_all [Value.as_object, Value.is_object]
  · intro kvs hk
    have hfold : ∀ k, (ok_params_fields o).get k =
        (match kvs.reverse.find? (fun kv => kv.1 == k) with
         | some kv => some (field_value_spec kv.2)
         | none => none) := by
      intro k
      unfold ok_params_fields
      rw [hk]
      show (kvs.foldl (fun fields kv => fields.insert kv.1 (field_value_spec kv.2))
          FieldsMap.empty).get k = _
      rw [get_foldl_insert]
      cases kvs.reverse.find? (fun kv => kv.1 == k) <;> rfl
    constructor
    · intro k
      rw [hfold k]
      cases kvs.reverse.find? (fun kv => kv.1 == k) <;> rfl
    · intro kv hkv
      rw [hfold kv.1]
      have hsome : (kvs.reverse.find? (fun x => x.1 == kv.1)).isSome := by
        rw [List.find?_isSome]
        exact ⟨kv, List.mem_reverse.mpr hkv, beq_self_eq_true kv.1⟩
      cases hf : kvs.reverse.find? (fun x => x.1 == kv.1) with
      | none => rw [hf] at hsome; simp at hsome
      | some kv' => rfl

theorem fields_extractor_witness :
    (Value.object [("fields", Value.object
        [("articles", Value.string "title,body"), ("people", Value.null)])]).pointer "/fields" =
      some (Value.object [("articles", Value.string "title,body"), ("people", Value.null)]) ∧
    (ok_params_fields (Value.object [("fields", Value.object
        [("articles", Value.string "title,body"), ("people", Value.null)])])).get "articles" =
      some ["title", "body"] ∧
    (ok_params_fields (Value.object [("fields", Value.object
        [("articles", Value.string "title,body"), ("people", Value.null)])])).get "people" =
      some [] := by
  have h := (fields_extractor_spec (Value.object [("fields", Value.object
      [("articles", Value.string "title,body"), ("people", Value.null)])])).2.2
    [("articles", Value.string "title,body"), ("people", Value.null)] rfl
  refine ⟨rfl, ?_, ?_⟩
  · rw [h.1 "articles"]
    rfl
  · rw [h.1 "people"]
    rfl

/-- C9: the decoded `filter` is `Some document` exactly when the `filter`
entry is present and string-shaped, the string parses as a structured
document, and the parsed document is object-shaped; in every other case it
is `None`. -/
theorem filter_some_iff (jp : String → Option Value) (o d : Value) :
    ok_params_filter jp o = some d ↔
      ∃ s, o.pointer "/filter" = some (Value.string s) ∧ jp s = some d ∧ d.is_object = true := by
  have hcore : ∀ r : Option Value,
      ((match r with
        | none => none
        | some parsed_json => if parsed_json.is_object then some parsed_json else none)
          = some d)
        ↔ (r = some d ∧ d.is_object = true) := by
    intro r
    cases r with
    | none =>
      constructor
      · intro h
        exact Option.noConfusion h
      · intro h
        exact Option.noConfusion h.1
    | some pj =>
      show ((if pj.is_object then some pj else none) = some d) ↔ _
      constructor
      · intro h
        by_cases hio : pj.is_object = true
        · rw [if_pos hio] at h
          injection h with h2
          subst h2
          exact ⟨rfl, hio⟩
        · rw [if_neg hio] at h
          exact Option.noConfusion h
      · intro h
        injection h.1 with h2
        subst h2
        rw [if_pos h.2]
  unfold ok_params_filter
  cases hp : o.pointer "/filter" with
  | none =>
    constructor
    · intro h
      exact Option.noConfusion h
    · rintro ⟨s, hs, _, _⟩
      exact Option.noConfusion hs
  | some x =>
    cases x with
    | string s =>
      show (match jp s with
            | none => none
            | some parsed_json => if parsed_json.is_object then some parsed_json else none)
          = some d ↔ _
      rw [hcore (jp s)]
      constructor
      · intro h
        exact ⟨s, rfl, h.1, h.2⟩
      · rintro ⟨s', hs', hj', hd⟩
        injection hs' with h2
        injection h2 with h3
        rw [h3]
        exact ⟨hj', hd⟩
    | null =>
      constructor
      · intro h
        exact Option.noConfusion h
      · rintro ⟨s', hs', _, _⟩
        injection hs' with h2
        cases h2
    | bool b =>
      constructor
      · intro h
        exact Option.noConfusion h
      · rintro ⟨s', hs', _, _⟩
        injection hs' with h2
        cases h2
    | number n =>
      constructor
      · intro h
        exact Option.noConfusion h
      · rintro ⟨s', hs', _, _⟩
        injection hs' with h2
        cases h2
    | array xs =>
      constructor
      · intro h
        exact Option.noConfusion h
      · rintro ⟨s', hs', _, _⟩
        injection hs' with h2
        cases h2
    | object kvs =>
      constructor
      · intro h
        exact Option.noConfusion h
      · rintro ⟨s', hs', _, _⟩
        injection hs' with h2
        cases h2

theorem filter_some_iff_witness :
    ok_params_filter (fun s => if s = "\x7b\x7d" then some (Value.object []) else none)
        (Value.object [("filter", Value.string "\x7b\x7d")]) = some (Value.object []) :=
  (filter_some_iff _ _ _).mpr ⟨"\x7b\x7d", rfl, rfl, rfl⟩

/-- C10: `to_params` never reads the resource-type tag: any two `Query`
values that agree on the five optional fields — and so differ at most in
`_type` — serialize to identical strings. -/
theorem to_params_ignores_resource_type (q₁ q₂ : Query)
    (hi : q₁.«include» = q₂.«include») (hf : q₁.fields = q₂.fields)
    (hp : q₁.page = q₂.page) (hs : q₁.sort = q₂.sort) (hfl : q₁.filter = q₂.filter) :
    q₁.to_params = q₂.to_params := by
  unfold Query.to_params
  rw [hi, hf, hp, hs, hfl]

theorem to_params_ignores_resource_type_witness :
    ({ _type := "articles", «include» := some ["author"], fields := none, page := none,
       sort := none, filter := none } : Query).to_params =
      ({ _type := "people", «include» := some ["author"], fields := none, page := none,
         sort := none, filter := none } : Query).to_params :=
  to_params_ignores_resource_type _ _ rfl rfl rfl rfl rfl

end JsonApiQuery
